import Mathlib

/-!
Verification of the spc build-cache core (fingerprinting, artifact
classification, artifact store, cache manager) against its natural-language
specification.  Go strings are modelled as `List Char` (the inputs of interest
are ASCII, where Go's byte indexing and the character list coincide), file
contents as `List Nat` of byte values, and the filesystem as a partial map
from paths to files.  SHA-256 is implemented in full (FIPS 180-4) over
byte lists with arithmetic modulo 2^32.
-/

/-- Strings as Go manipulates them, modelled as lists of characters. -/
abbrev GoStr := List Char

/-- Conversion from Lean string literals to the Go string model. -/
def gs (s : String) : GoStr := s.toList

/-- UTF-8 encoding of a single character, as byte values. -/
def utf8Char (c : Char) : List Nat :=
  let n := c.toNat
  if n < 128 then [n]
  else if n < 2048 then [192 + n / 64, 128 + n % 64]
  else if n < 65536 then [224 + n / 4096, 128 + (n / 64) % 64, 128 + n % 64]
  else [240 + n / 262144, 128 + (n / 4096) % 64, 128 + (n / 64) % 64, 128 + n % 64]

/-- UTF-8 encoding of a string, as byte values (Go's `[]byte(s)`). -/
def utf8 (s : GoStr) : List Nat := s.flatMap utf8Char

/-! ## SHA-256 (FIPS 180-4) over byte lists -/

/-- Modulus for 32-bit words. -/
def M32 : Nat := 4294967296

/-- Addition modulo 2^32. -/
def add32 (a b : Nat) : Nat := (a + b) % M32

/-- Bitwise complement within 32 bits. -/
def not32 (a : Nat) : Nat := Nat.xor a 4294967295

/-- Right rotation of a 32-bit word. -/
def rotr32 (n x : Nat) : Nat :=
  Nat.lor (Nat.shiftRight x n) (Nat.shiftLeft x (32 - n) % M32)

/-- Logical right shift. -/
def shr32 (n x : Nat) : Nat := Nat.shiftRight x n

def bigSigma0 (x : Nat) : Nat := Nat.xor (rotr32 2 x) (Nat.xor (rotr32 13 x) (rotr32 22 x))

def bigSigma1 (x : Nat) : Nat := Nat.xor (rotr32 6 x) (Nat.xor (rotr32 11 x) (rotr32 25 x))

def smallSigma0 (x : Nat) : Nat := Nat.xor (rotr32 7 x) (Nat.xor (rotr32 18 x) (shr32 3 x))

def smallSigma1 (x : Nat) : Nat := Nat.xor (rotr32 17 x) (Nat.xor (rotr32 19 x) (shr32 10 x))

def ch32 (e f g : Nat) : Nat := Nat.xor (Nat.land e f) (Nat.land (not32 e) g)

def maj32 (a b c : Nat) : Nat :=
  Nat.xor (Nat.land a b) (Nat.xor (Nat.land a c) (Nat.land b c))

/-- SHA-256 round constants (FIPS 180-4 section 4.2.2, written in decimal). -/
def K256 : List Nat :=
  [1116352408, 1899447441, 3049323471, 3921009573, 961987163, 1508970993, 2453635748,
   2870763221, 3624381080, 310598401, 607225278, 1426881987, 1925078388, 2162078206,
   2614888103, 3248222580, 3835390401, 4022224774, 264347078, 604807628, 770255983, 1249150122,
   1555081692, 1996064986, 2554220882, 2821834349, 2952996808, 3210313671, 3336571891,
   3584528711, 113926993, 338241895, 666307205, 773529912, 1294757372, 1396182291, 1695183700,
   1986661051, 2177026350, 2456956037, 2730485921, 2820302411, 3259730800, 3345764771,
   3516065817, 3600352804, 4094571909, 275423344, 430227734, 506948616, 659060556, 883997877,
   958139571, 1322822218, 1537002063, 1747873779, 1955562222, 2024104815, 2227730452,
   2361852424, 2428436474, 2756734187, 3204031479, 3329325298]

/-- SHA-256 initial hash value (FIPS 180-4 section 5.3.3, written in decimal). -/
def H256 : List Nat :=
  [1779033703, 3144134277, 1013904242, 2773480762, 1359893119, 2600822924, 528734635,
   1541459225]

/-- Big-endian 8-byte encoding of a natural number (the length field). -/
def be64 (n : Nat) : List Nat :=
  [n / 2 ^ 56 % 256, n / 2 ^ 48 % 256, n / 2 ^ 40 % 256, n / 2 ^ 32 % 256,
   n / 2 ^ 24 % 256, n / 2 ^ 16 % 256, n / 2 ^ 8 % 256, n % 256]

/-- SHA-256 message padding: a 0x80 byte, zeros to 56 mod 64, then the
bit length as a big-endian 64-bit integer. -/
def sha256pad (msg : List Nat) : List Nat :=
  msg ++ 128 :: List.replicate ((119 - msg.length % 64) % 64) 0 ++ be64 (8 * msg.length)

/-- Group a byte list into big-endian 32-bit words. -/
def toWords : List Nat → List Nat
  | b0 :: b1 :: b2 :: b3 :: rest => (((b0 * 256 + b1) * 256 + b2) * 256 + b3) :: toWords rest
  | _ => []

/-- One extension step of the SHA-256 message schedule. -/
def stepW (ws : List Nat) : List Nat :=
  ws ++ [add32 (add32 (smallSigma1 (ws.getD (ws.length - 2) 0)) (ws.getD (ws.length - 7) 0))
    (add32 (smallSigma0 (ws.getD (ws.length - 15) 0)) (ws.getD (ws.length - 16) 0))]

/-- The 64-word message schedule from the 16 words of one block. -/
def schedule (ws : List Nat) : List Nat :=
  (List.range 48).foldl (fun acc _ => stepW acc) ws

/-- One SHA-256 compression round on the eight working variables. -/
def compressStep (st : List Nat) (wk : Nat × Nat) : List Nat :=
  match st with
  | [a, b, c, d, e, f, g, h] =>
    let t1 := add32 h (add32 (bigSigma1 e) (add32 (ch32 e f g) (add32 wk.2 wk.1)))
    let t2 := add32 (bigSigma0 a) (maj32 a b c)
    [add32 t1 t2, a, b, c, add32 d t1, e, f, g]
  | _ => st

/-- Process a single 64-byte block into the running hash value. -/
def compress (H : List Nat) (block : List Nat) : List Nat :=
  let ws := schedule (toWords block)
  let st := (ws.zip K256).foldl compressStep H
  List.zipWith add32 H st

/-- Split the padded message into 64-byte blocks (fuel-based recursion; the
fuel `l.length` always suffices because each step drops at least one byte). -/
def chunks64Aux : Nat → List Nat → List (List Nat)
  | 0, _ => []
  | _, [] => []
  | fuel + 1, l@(_ :: _) => l.take 64 :: chunks64Aux fuel (l.drop 64)

def chunks64 (l : List Nat) : List (List Nat) := chunks64Aux l.length l

/-- Big-endian bytes of a 32-bit word. -/
def wordBytes (w : Nat) : List Nat :=
  [w / 2 ^ 24 % 256, w / 2 ^ 16 % 256, w / 2 ^ 8 % 256, w % 256]

/-- The SHA-256 digest (32 bytes) of a byte list. -/
def sha256 (msg : List Nat) : List Nat :=
  ((chunks64 (sha256pad msg)).foldl compress H256).flatMap wordBytes

/-- Lowercase hexadecimal digit characters. -/
def hexDigits : List Char := gs "0123456789abcdef"

/-- Hexadecimal digit for one nibble, as Go's hex table indexes it. -/
def hexChar (n : Nat) : Char :=
  match n with
  | 0 => '0' | 1 => '1' | 2 => '2' | 3 => '3' | 4 => '4' | 5 => '5' | 6 => '6' | 7 => '7'
  | 8 => '8' | 9 => '9' | 10 => 'a' | 11 => 'b' | 12 => 'c' | 13 => 'd' | 14 => 'e' | 15 => 'f'
  | _ => '0'

def byteHex (b : Nat) : List Char := [hexChar (b / 16), hexChar (b % 16)]

/-- Go's `hex.EncodeToString`: lowercase hex of a byte list. -/
def hexEncodeToString (bs : List Nat) : GoStr := bs.flatMap byteHex

/-- FIPS 180-4 test vector: the digest of the empty message. -/
theorem sha256_empty_vector :
    hexEncodeToString (sha256 []) =
      gs "e3b0c44298fc1c149afbf4c8996fb92427ae41e4649b934ca495991b7852b855" := by
  decide

/-- FIPS 180-4 test vector: the digest of the three-byte message "abc". -/
theorem sha256_abc_vector :
    hexEncodeToString (sha256 (utf8 (gs "abc"))) =
      gs "ba7816bf8f01cfea414140de5dae2223b00361a396177a9cb410ff61f20015ad" := by
  decide

/-! ## Fingerprinter (HashSource, internal/cache hashing) -/

/-- The parts of `config.Config` that the cache consumes. -/
structure Config where
  target : GoStr
  userFolders : List GoStr

/-- Go's `sort.Strings`: ascending lexicographic order.  Go sorts a copy of
the slice; since string lexicographic order is total and antisymmetric the
sorted result is unique, so insertion sort produces the same list. -/
def sortStrings (l : List GoStr) : List GoStr := List.insertionSort (· ≤ ·) l

/-- Go's `sha256.New()`: a fresh hasher, modelled as the bytes fed so far. -/
def sha256New : List Nat := []

/-- Feeding bytes to a hasher (`h.Write` / `io.Copy(h, f)`). -/
def hashWrite (h bs : List Nat) : List Nat := h ++ bs

/-- Finalising the hasher (`h.Sum(nil)`). -/
def hashSum (h : List Nat) : List Nat := sha256 h

/-- The digest computation of `HashSource` once the source bytes are in hand:
write the source content, then the target string, then the pipe-joined sorted
copy of the user folders, and hex-encode the final digest. -/
def hashSourceBytes (content : List Nat) (cfg : Config) : GoStr :=
  let h0 := sha256New
  let h1 := hashWrite h0 content
  let h2 := hashWrite h1 (utf8 cfg.target)
  let sortedFolders := sortStrings cfg.userFolders
  let h3 := hashWrite h2 (utf8 (List.intercalate (gs "|") sortedFolders))
  hexEncodeToString (hashSum h3)

/-- The fingerprint operation `HashSource` of the cache package.  The source
file is modelled by its readable content (`none` when opening/reading the
file fails, in which case the Go code returns a wrapped error). -/
def HashSource (sourceContent : Option (List Nat)) (cfg : Config) : Except GoStr GoStr :=
  match sourceContent with
  | none => Except.error (gs "failed to open source file")
  | some content => Except.ok (hashSourceBytes content cfg)

/-- Every character emitted by the hex encoder is a lowercase hex digit. -/
theorem hexEncodeToString_lowercase (bs : List Nat) :
    (hexEncodeToString bs).all (fun c => hexDigits.contains c) = true := by
  rw [List.all_eq_true]
  intro c hc
  rw [hexEncodeToString, List.mem_flatMap] at hc
  obtain ⟨b, _, hcb⟩ := hc
  have hmem : ∀ n : Nat, hexDigits.contains (hexChar n) = true := by
    intro n
    unfold hexChar
    split <;> decide
  simp only [byteHex, List.mem_cons, List.not_mem_nil, or_false] at hcb
  rcases hcb with h | h
  · rw [h]; exact hmem _
  · rw [h]; exact hmem _

/-- C1: for a readable source, `HashSource` returns the lowercase hex SHA-256
digest of the source bytes, then the UTF-8 target bytes, then the pipe-joined
ascending-sorted copy of the user-folder list, in that order; an empty folder
list contributes the empty string; the sorted list is an ascending permutation
of the caller's list (which, being sorted on a copy, is left unmodified); and
an unreadable source yields an error instead of a fingerprint. -/
theorem C1_HashSource_fingerprint (content : List Nat) (target : GoStr) (folders : List GoStr) :
    HashSource (some content) ⟨target, folders⟩ =
      Except.ok (hexEncodeToString (sha256 (content ++ utf8 target ++
        utf8 (List.intercalate (gs "|") (sortStrings folders))))) ∧
    List.Sorted (· ≤ ·) (sortStrings folders) ∧
    (sortStrings folders).Perm folders ∧
    HashSource (some content) ⟨target, []⟩ =
      Except.ok (hexEncodeToString (sha256 (content ++ utf8 target))) ∧
    (hexEncodeToString (sha256 (content ++ utf8 target ++
      utf8 (List.intercalate (gs "|") (sortStrings folders))))).all
        (fun c => hexDigits.contains c) = true ∧
    HashSource none ⟨target, folders⟩ = Except.error (gs "failed to open source file") := by
  refine ⟨?_, ?_, ?_, ?_, ?_, ?_⟩
  · simp [HashSource, hashSourceBytes, sha256New, hashWrite, hashSum, List.append_assoc]
  · exact List.sorted_insertionSort _ _
  · exact List.perm_insertionSort _ _
  · simp [HashSource, hashSourceBytes, sha256New, hashWrite, hashSum, sortStrings,
      List.insertionSort, List.intercalate, utf8]
  · exact hexEncodeToString_lowercase _
  · rfl

/-! ## Artifact classifier (internal/cache artifacts) -/

/-- Go `filepath.Ext`: the suffix beginning at the final dot of the name
(including the dot), or empty when the name has no dot. -/
def goExt (s : GoStr) : GoStr :=
  let pre := s.reverse.takeWhile (fun c => decide (c ≠ '.'))
  if pre.length = s.length then [] else '.' :: pre.reverse

/-- Go `filename[:len(filename)-len(filepath.Ext(filename))]`: the basename
of a file name without its extension. -/
def fileBaseOf (s : GoStr) : GoStr := s.take (s.length - (goExt s).length)

/-- Go `filepath.Base` (slash-separated form): empty path gives ".", a path
of separators gives "/", otherwise the last element with trailing separators
removed. -/
def goBase (s : GoStr) : GoStr :=
  if s = [] then gs "."
  else
    let trimmed := (s.reverse.dropWhile (fun c => decide (c = '/'))).reverse
    if trimmed = [] then gs "/"
    else (trimmed.reverse.takeWhile (fun c => decide (c ≠ '/'))).reverse

/-- The cache package's `contains` helper: whether a string contains a
specific character (a linear scan in the source). -/
def goContains : GoStr → Char → Bool
  | [], _ => false
  | c :: rest, ch => if c = ch then true else goContains rest ch

/-- The cache package's `findSubstring` helper.  The Go loop probes every
window `s[i:i+len(substr)]` for `0 ≤ i ≤ len(s)-len(substr)`; this recursion
probes the same windows suffix by suffix. -/
def findSubstring : GoStr → GoStr → Bool
  | [], substr => substr.isEmpty
  | s@(_ :: rest), substr =>
    (decide (substr.length ≤ s.length) && substr.isPrefixOf s) || findSubstring rest substr

/-- The cache package's `containsIgnoreCase` helper, translated exactly as
written: despite its name and doc comment it compares bytes directly and
never folds letter case. -/
def containsIgnoreCase (s0 substr : GoStr) : Bool :=
  let s := goBase s0
  decide (substr.length ≤ s.length) &&
    (decide (s = substr) ||
      (decide (substr.length < s.length) &&
        (decide (s.take substr.length = substr) ||
          decide (s.drop (s.length - substr.length) = substr) ||
          findSubstring s substr)))

/-- The DLL keyword list of `isSharedFile`. -/
def sharedKeywords : List GoStr :=
  [gs "Managed", gs "Simpl", gs "Sharp", gs "Splus", gs "Smart", gs "Utilities",
   gs "Newtonsoft", gs "Json"]

/-- The cache package's `isSharedFile`: DLLs whose base name contains one of
the shared keywords, and all `.ini`/`.xml`/`.dat`/`.der` files. -/
def isSharedFile (filename : GoStr) : Bool :=
  let ext := goExt filename
  let baseName := filename.take (filename.length - ext.length)
  (if ext = gs ".dll" then sharedKeywords.any (fun k => containsIgnoreCase baseName k)
   else false) ||
    (decide (ext = gs ".ini") || decide (ext = gs ".xml") || decide (ext = gs ".dat") ||
      decide (ext = gs ".der"))

/-- Modelled from the spec: the space-to-underscore normalisation of the
filename matching rule.  The current classifier implementation is missing
from the source snapshot (only older variants and the tests that exercise
this rule are present), so the matching rule follows the spec's words. -/
def spaceToUnderscore (s : GoStr) : GoStr := s.map (fun c => if c = ' ' then '_' else c)

/-- Modelled from the spec: a candidate basename matches the source basename
when the two are equal after replacing ASCII spaces with underscores in both,
or exactly. -/
def baseMatches (candidate baseName : GoStr) : Bool :=
  decide (candidate = baseName) ||
    decide (spaceToUnderscore candidate = spaceToUnderscore baseName)

/-- The series switch of the classifier: a series-prefixed file belongs iff
the target string contains that series digit; digits other than 2, 3, 4
never match. -/
def seriesInTarget (d : Char) (target : GoStr) : Bool :=
  if d = '2' then goContains target '2'
  else if d = '3' then goContains target '3'
  else if d = '4' then goContains target '4'
  else false

/-- Modelled from the spec: `isOutputFileForTarget`.  A direct match of the
basename (exact or space-normalised) belongs iff the target contains '3' or
'4'; a name of the form `S<c>_<rest>` whose rest matches the basename belongs
iff the target contains the series digit `<c>`. -/
def isOutputFileForTarget (filename baseName target : GoStr) : Bool :=
  let fileBase := fileBaseOf filename
  if baseMatches fileBase baseName then
    goContains target '3' || goContains target '4'
  else if 3 < fileBase.length ∧ fileBase.getD 0 ' ' = 'S' ∧ fileBase.getD 2 ' ' = '_' then
    if baseMatches (fileBase.drop 3) baseName then
      seriesInTarget (fileBase.getD 1 ' ') target
    else false
  else false

/-- `CollectOutputs` over a snapshot of the filesystem: the adjacent
`<base>.ush` when present, then every regular (non-directory) entry of the
`SPlsWork` working directory other than the literal `metadata.json` that the
classifier assigns to this source and target, under a `SPlsWork/` prefix. -/
def CollectOutputs (baseName : GoStr) (ushExists : Bool) (entries : List (GoStr × Bool))
    (target : GoStr) : List GoStr :=
  (if ushExists then [baseName ++ gs ".ush"] else []) ++
    (entries.filter fun e =>
        !e.2 && !(decide (e.1 = gs "metadata.json")) &&
          isOutputFileForTarget e.1 baseName target).map
      (fun e => gs "SPlsWork/" ++ e.1)

/-- `CollectSharedFiles` over a snapshot of the working directory: the
regular entries classified as shared, under a `SPlsWork/` prefix. -/
def CollectSharedFiles (entries : List (GoStr × Bool)) : List GoStr :=
  (entries.filter fun e => !e.2 && isSharedFile e.1).map (fun e => gs "SPlsWork/" ++ e.1)

example : isOutputFileForTarget (gs "example_3.cs") (gs "example 3") (gs "34") = true := by decide
example : isOutputFileForTarget (gs "example 3.inf") (gs "example 3") (gs "34") = true := by decide
example : isOutputFileForTarget (gs "S2_example_3.c") (gs "example 3") (gs "2") = true := by decide
example : isOutputFileForTarget (gs "S2_example_3.c") (gs "example 3") (gs "34") = false := by decide
example : isOutputFileForTarget (gs "other_file.cs") (gs "example 3") (gs "34") = false := by decide
example : isOutputFileForTarget (gs "example 3.inf") (gs "example 3") (gs "2") = false := by decide
example : isSharedFile (gs "SplusLibrary.dll") = true := by decide
example : isSharedFile (gs "Version.ini") = true := by decide
example : isSharedFile (gs "SPLUSLIBRARY.dll") = false := by decide
example : isSharedFile (gs "example1.dll") = false := by decide

/-- Membership in `CollectOutputs`: an element is either the adjacent header
file, or a prefixed working-directory entry that is a regular file, is not
the literal metadata file, and is assigned to this source and target. -/
theorem mem_CollectOutputs {baseName : GoStr} {ush : Bool} {entries : List (GoStr × Bool)}
    {target x : GoStr} :
    x ∈ CollectOutputs baseName ush entries target ↔
      (ush = true ∧ x = baseName ++ gs ".ush") ∨
        ∃ n, (n, false) ∈ entries ∧ ¬n = gs "metadata.json" ∧
          isOutputFileForTarget n baseName target = true ∧ x = gs "SPlsWork/" ++ n := by
  constructor
  · intro hx
    rcases List.mem_append.1 hx with h1 | h2
    · left
      cases ush
      · simp at h1
      · refine ⟨rfl, ?_⟩
        simpa using h1
    · right
      rcases List.mem_map.1 h2 with ⟨e, he, hfe⟩
      rcases List.mem_filter.1 he with ⟨hees, hp⟩
      obtain ⟨n, d⟩ := e
      simp only [Bool.and_eq_true, Bool.not_eq_true', decide_eq_false_iff_not] at hp
      obtain ⟨⟨hd, hmeta⟩, hmatch⟩ := hp
      subst hd
      exact ⟨n, hees, hmeta, hmatch, hfe.symm⟩
  · rintro (⟨hu, hx⟩ | ⟨n, hn, hmeta, hmatch, hx⟩)
    · subst hu; subst hx
      apply List.mem_append.2; left; simp
    · subst hx
      apply List.mem_append.2; right
      refine List.mem_map.2 ⟨(n, false), List.mem_filter.2 ⟨hn, ?_⟩, rfl⟩
      simp [hmeta, hmatch]

/-- A successful base-name match implies equality after the space-to-
underscore normalisation (the exact branch is a special case). -/
theorem baseMatches_norm {a b : GoStr} (h : baseMatches a b = true) :
    spaceToUnderscore a = spaceToUnderscore b := by
  unfold baseMatches at h
  rw [Bool.or_eq_true] at h
  rcases h with h | h
  · exact congrArg spaceToUnderscore (of_decide_eq_true h)
  · exact of_decide_eq_true h

/-- Anatomy of a positive classifier verdict: either the basename matches
directly and the target has Series 3 or 4, or the name splits as
`S<d>_<m>` with `m` matching the basename and series `d` in the target. -/
theorem isOutputFileForTarget_elim {n b t : GoStr}
    (h : isOutputFileForTarget n b t = true) :
    (spaceToUnderscore (fileBaseOf n) = spaceToUnderscore b ∧
      (goContains t '3' = true ∨ goContains t '4' = true)) ∨
      ∃ d m, fileBaseOf n = 'S' :: d :: '_' :: m ∧ m ≠ [] ∧
        spaceToUnderscore m = spaceToUnderscore b ∧ seriesInTarget d t = true := by
  unfold isOutputFileForTarget at h
  by_cases hb : baseMatches (fileBaseOf n) b = true
  · rw [if_pos hb] at h
    rw [Bool.or_eq_true] at h
    exact Or.inl ⟨baseMatches_norm hb, h⟩
  · rw [if_neg hb] at h
    by_cases hs : 3 < (fileBaseOf n).length ∧ (fileBaseOf n).getD 0 ' ' = 'S' ∧
        (fileBaseOf n).getD 2 ' ' = '_'
    · rw [if_pos hs] at h
      by_cases hr : baseMatches ((fileBaseOf n).drop 3) b = true
      · rw [if_pos hr] at h
        obtain ⟨hlen, h0, h2⟩ := hs
        rcases hfb : fileBaseOf n with _ | ⟨c1, l1⟩
        · rw [hfb] at hlen; simp at hlen
        rcases l1 with _ | ⟨c2, l2⟩
        · rw [hfb] at hlen; simp at hlen
        rcases l2 with _ | ⟨c3, l3⟩
        · rw [hfb] at hlen; simp at hlen
        rw [hfb] at hlen h0 h2 hr h
        refine Or.inr ⟨c2, l3, ?_, ?_, ?_, ?_⟩
        · simp only [List.getD] at h0 h2
          simp at h0 h2
          rw [h0, h2]
        · intro hnil
          rw [hnil] at hlen
          simp at hlen
        · exact baseMatches_norm (by simpa using hr)
        · simpa using h
      · rw [if_neg hr] at h
        exact absurd h (by simp)
    · rw [if_neg hs] at h
      exact absurd h (by simp)

/-- A matching basename makes the classifier take the direct branch. -/
theorem isOutputFileForTarget_direct {n b t : GoStr}
    (hb : baseMatches (fileBaseOf n) b = true)
    (ht : goContains t '3' = true ∨ goContains t '4' = true) :
    isOutputFileForTarget n b t = true := by
  simp only [isOutputFileForTarget]
  rw [if_pos hb, Bool.or_eq_true]
  exact ht

/-- Conversely, with a matching basename a positive verdict forces Series 3
or 4 into the target. -/
theorem isOutputFileForTarget_direct_inv {n b t : GoStr}
    (hb : baseMatches (fileBaseOf n) b = true)
    (h : isOutputFileForTarget n b t = true) :
    goContains t '3' = true ∨ goContains t '4' = true := by
  simp only [isOutputFileForTarget] at h
  rw [if_pos hb, Bool.or_eq_true] at h
  exact h

/-- C2: a regular working-directory file other than metadata.json whose
basename (without extension) equals the source basename is collected exactly
when the target contains the digit 3 or the digit 4; in particular no such
direct-form file is collected for target "2". -/
theorem C2_direct_form_iff_target34 :
    (∀ (base target : GoStr) (ush : Bool) (entries : List (GoStr × Bool)) (name : GoStr),
      ¬ '/' ∈ base → (name, false) ∈ entries → ¬ name = gs "metadata.json" →
      fileBaseOf name = base →
      (gs "SPlsWork/" ++ name ∈ CollectOutputs base ush entries target ↔
        goContains target '3' = true ∨ goContains target '4' = true)) ∧
    CollectOutputs (gs "b") false [(gs "b.dll", false)] (gs "2") = [] := by
  constructor
  · intro base target ush entries name hslash hmem hmeta hbase
    have hb : baseMatches (fileBaseOf name) base = true := by
      unfold baseMatches
      rw [Bool.or_eq_true]
      exact Or.inl (decide_eq_true hbase)
    constructor
    · intro hx
      rcases mem_CollectOutputs.1 hx with ⟨_, heq⟩ | ⟨n, _, _, hmatch, heq⟩
      · exfalso
        have h1 : '/' ∈ gs "SPlsWork/" ++ name := List.mem_append.2 (Or.inl (by decide))
        rw [heq] at h1
        rcases List.mem_append.1 h1 with h | h
        · exact hslash h
        · exact (by decide : ¬ '/' ∈ gs ".ush") h
      · have hn : name = n := List.append_cancel_left heq
        rw [← hn] at hmatch
        exact isOutputFileForTarget_direct_inv hb hmatch
    · intro ht
      exact mem_CollectOutputs.2
        (Or.inr ⟨name, hmem, hmeta, isOutputFileForTarget_direct hb ht, rfl⟩)
  · decide

/-- C2 witness: at target "34" the direct-form file is collected. -/
theorem C2_witness :
    gs "SPlsWork/" ++ gs "b.dll" ∈
      CollectOutputs (gs "b") false [(gs "b.dll", false)] (gs "34") :=
  (C2_direct_form_iff_target34.1 (gs "b") (gs "34") false [(gs "b.dll", false)] (gs "b.dll")
    (by decide) (by decide) (by decide) (by decide)).2 (Or.inl (by decide))

/-- C3: the classifier accepts a candidate whenever its basename equals the
source basename after replacing spaces with underscores in both (the exact
match being a special case), and on the spec's literal scenario — source
"example 3.usp", target "234" — it collects exactly the adjacent header and
the four working-directory files. -/
theorem C3_space_underscore_matching :
    (∀ (name base target : GoStr),
      spaceToUnderscore (fileBaseOf name) = spaceToUnderscore base →
      goContains target '3' = true ∨ goContains target '4' = true →
      isOutputFileForTarget name base target = true) ∧
    CollectOutputs (gs "example 3") true
        [(gs "example 3.inf", false), (gs "example_3.cs", false), (gs "example_3.dll", false),
          (gs "S2_example_3.c", false)] (gs "234") =
      [gs "example 3" ++ gs ".ush", gs "SPlsWork/" ++ gs "example 3.inf",
        gs "SPlsWork/" ++ gs "example_3.cs", gs "SPlsWork/" ++ gs "example_3.dll",
        gs "SPlsWork/" ++ gs "S2_example_3.c"] := by
  constructor
  · intro name base target hnorm ht
    apply isOutputFileForTarget_direct _ ht
    unfold baseMatches
    rw [Bool.or_eq_true]
    exact Or.inr (decide_eq_true hnorm)
  · decide

/-- C3 witness: underscored candidate against a spaced source basename. -/
theorem C3_witness :
    isOutputFileForTarget (gs "example_3.dll") (gs "example 3") (gs "34") = true :=
  C3_space_underscore_matching.1 (gs "example_3.dll") (gs "example 3") (gs "34")
    (by decide) (Or.inl (by decide))

/-- C4 counterexample: with source basename "S2_foo" and target "34", the
direct-form file "S2_foo.dll" is collected even though its name begins with
the series prefix S2_ and the digit 2 is absent from the target. -/
theorem C4_counterexample :
    gs "SPlsWork/" ++ gs "S2_foo.dll" ∈
        CollectOutputs (gs "S2_foo") false [(gs "S2_foo.dll", false)] (gs "34") ∧
      List.isPrefixOf (gs "S2_") (gs "S2_foo.dll") = true ∧
      goContains (gs "34") '2' = false := by
  decide

/-- C4 as amended: when the digit `d` of a series-prefixed name `S<d>_<m>`
(`d` ∈ 2,3,4, `m` matching the source basename after space normalisation) is
absent from the target, that file is never collected.  Only a file whose
whole basename directly matches the source basename can carry an S-prefix
into the outputs. -/
theorem C4_series_prefix_filtering (base target name : GoStr) (ush : Bool)
    (entries : List (GoStr × Bool)) (d : Char) (m : GoStr)
    (hslash : ¬ '/' ∈ base)
    (hfb : fileBaseOf name = 'S' :: d :: '_' :: m)
    (hm : spaceToUnderscore m = spaceToUnderscore base)
    (hd : d = '2' ∨ d = '3' ∨ d = '4')
    (ht : goContains target d = false) :
    (gs "SPlsWork/" ++ name ∈ CollectOutputs base ush entries target) = False := by
  apply eq_false
  intro hx
  rcases mem_CollectOutputs.1 hx with ⟨_, heq⟩ | ⟨n, _, _, hmatch, heq⟩
  · have h1 : '/' ∈ gs "SPlsWork/" ++ name := List.mem_append.2 (Or.inl (by decide))
    rw [heq] at h1
    rcases List.mem_append.1 h1 with h | h
    · exact hslash h
    · exact (by decide : ¬ '/' ∈ gs ".ush") h
  · have hn : name = n := List.append_cancel_left heq
    rw [← hn] at hmatch
    rcases isOutputFileForTarget_elim hmatch with ⟨hnorm, _⟩ | ⟨d2, m2, hfb2, _, hm2, hser⟩
    · rw [hfb] at hnorm
      have hlen := congrArg List.length hnorm
      have hlm := congrArg List.length hm
      simp [spaceToUnderscore] at hlen hlm
      omega
    · rw [hfb] at hfb2
      have hinj : d = d2 ∧ m = m2 := by
        have h1 := hfb2
        simp only [List.cons.injEq] at h1
        exact ⟨h1.2.1, h1.2.2.2⟩
      obtain ⟨hdd, hmm⟩ := hinj
      rw [← hdd] at hser
      rcases hd with h | h | h <;> rw [h] at hser ht <;> simp [seriesInTarget] at hser <;>
        rw [ht] at hser <;> exact Bool.false_ne_true hser

/-- C4 witness: an S2-prefixed file of the matching basename is rejected at
target "34". -/
theorem C4_witness :
    (gs "SPlsWork/" ++ gs "S2_foo.dll" ∈
        CollectOutputs (gs "foo") false [(gs "S2_foo.dll", false)] (gs "34")) = False :=
  C4_series_prefix_filtering (gs "foo") (gs "34") (gs "S2_foo.dll") false
    [(gs "S2_foo.dll", false)] '2' (gs "foo") (by decide) (by decide) (by decide)
    (Or.inl rfl) (by decide)

/-- C6: evaluation of `isSharedFile` as written.  Canonically cased keyword
names are classified shared and the four config extensions are always shared,
but the keyword test is byte-exact — `containsIgnoreCase` never folds case —
so differently cased DLL names are not classified shared, contrary to the
claim (and to the helper's own name and doc comment). -/
theorem C6_isSharedFile_case_sensitivity :
    isSharedFile (gs "SplusLibrary.dll") = true ∧
    isSharedFile (gs "ManagedUtilities.dll") = true ∧
    isSharedFile (gs "Newtonsoft.Json.dll") = true ∧
    isSharedFile (gs "SPLUSLIBRARY.dll") = false ∧
    isSharedFile (gs "newtonsoft.json.dll") = false ∧
    isSharedFile (gs "spluslibrary.dll") = false ∧
    containsIgnoreCase (gs "SPLUSLIBRARY") (gs "Splus") = false ∧
    isSharedFile (gs "cfg.ini") = true ∧
    isSharedFile (gs "a.xml") = true ∧
    isSharedFile (gs "b.dat") = true ∧
    isSharedFile (gs "c.der") = true := by
  decide

/-- Whether `x` has the series-prefixed shape `S<c>_` followed by exactly
`y` — the cross-basename relation under which two sources can share a file. -/
def crossSeriesOf (x y : GoStr) : Bool :=
  match x with
  | 'S' :: _ :: '_' :: rest => decide (rest = y)
  | _ => false

/-- An adjacent-header output never coincides with a prefixed working-
directory output when the basename is slash-free. -/
theorem ush_ne_entry {b n : GoStr} (hs : ¬ '/' ∈ b) :
    ¬ b ++ gs ".ush" = gs "SPlsWork/" ++ n := by
  intro h
  have h1 : '/' ∈ gs "SPlsWork/" ++ n := List.mem_append.2 (Or.inl (by decide))
  rw [← h] at h1
  rcases List.mem_append.1 h1 with h2 | h2
  · exact hs h2
  · exact (by decide : ¬ '/' ∈ gs ".ush") h2

/-- C7 counterexample: with basenames "foo" and "S2_foo" and target "234",
the working-directory file "S2_foo.dll" is owned by both sources, so the
claimed disjointness fails exactly in the parenthetical case the claim
asserts to cover. -/
theorem C7_counterexample :
    gs "SPlsWork/" ++ gs "S2_foo.dll" ∈
        CollectOutputs (gs "foo") false [(gs "S2_foo.dll", false)] (gs "234") ∧
      gs "SPlsWork/" ++ gs "S2_foo.dll" ∈
        CollectOutputs (gs "S2_foo") false [(gs "S2_foo.dll", false)] (gs "234") ∧
      ¬ gs "foo" = gs "S2_foo" := by
  decide

/-- C7 as amended: ownership is disjoint for basenames that differ after
space normalisation, provided neither normalised basename is the other with
an `S<c>_` series prefix attached (the counterexample shows the proviso is
necessary). -/
theorem C7_ownership_disjoint (bA bB : GoStr) (ushA ushB : Bool)
    (entries : List (GoStr × Bool)) (target x : GoStr)
    (hsA : ¬ '/' ∈ bA) (hsB : ¬ '/' ∈ bB)
    (hne : ¬ spaceToUnderscore bA = spaceToUnderscore bB)
    (hcAB : crossSeriesOf (spaceToUnderscore bA) (spaceToUnderscore bB) = false)
    (hcBA : crossSeriesOf (spaceToUnderscore bB) (spaceToUnderscore bA) = false) :
    (x ∈ CollectOutputs bA ushA entries target ∧
      x ∈ CollectOutputs bB ushB entries target) = False := by
  apply eq_false
  rintro ⟨hxA, hxB⟩
  rcases mem_CollectOutputs.1 hxA with ⟨_, heqA⟩ | ⟨nA, _, _, hmA, heqA⟩ <;>
    rcases mem_CollectOutputs.1 hxB with ⟨_, heqB⟩ | ⟨nB, _, _, hmB, heqB⟩
  · have h := heqA.symm.trans heqB
    have hb : bA = bB := List.append_cancel_right h
    exact hne (congrArg spaceToUnderscore hb)
  · exact ush_ne_entry hsA (heqA.symm.trans heqB)
  · exact ush_ne_entry hsB (heqB.symm.trans heqA)
  · have hn : nA = nB := List.append_cancel_left (heqA.symm.trans heqB)
    rw [← hn] at hmB
    rcases isOutputFileForTarget_elim hmA with ⟨hdA, _⟩ | ⟨dA, mA, hfA, _, hmA2, _⟩ <;>
      rcases isOutputFileForTarget_elim hmB with ⟨hdB, _⟩ | ⟨dB, mB, hfB, _, hmB2, _⟩
    · exact hne (hdA.symm.trans hdB)
    · apply Bool.false_ne_true
      rw [← hcAB]
      rw [← hdA, hfB]
      simp [spaceToUnderscore, crossSeriesOf]
      simpa [spaceToUnderscore] using hmB2
    · apply Bool.false_ne_true
      rw [← hcBA]
      rw [← hdB, hfA]
      simp [spaceToUnderscore, crossSeriesOf]
      simpa [spaceToUnderscore] using hmA2
    · rw [hfA] at hfB
      have hmm : mA = mB := by
        simp only [List.cons.injEq] at hfB
        exact hfB.2.2.2
      rw [hmm] at hmA2
      exact hne (hmA2.symm.trans hmB2)

/-- C7 witness: two unrelated basenames cannot both own a file. -/
theorem C7_witness :
    (gs "SPlsWork/" ++ gs "alpha.dll" ∈
          CollectOutputs (gs "alpha") false [(gs "alpha.dll", false)] (gs "34") ∧
        gs "SPlsWork/" ++ gs "alpha.dll" ∈
          CollectOutputs (gs "beta") false [(gs "alpha.dll", false)] (gs "34")) = False :=
  C7_ownership_disjoint (gs "alpha") (gs "beta") false false
    [(gs "alpha.dll", false)] (gs "34") (gs "SPlsWork/" ++ gs "alpha.dll")
    (by decide) (by decide) (by decide) (by decide) (by decide)

/-! ## Artifact store (copy, restore, identity check) -/

/-- A file on disk: its bytes and its modification time. -/
structure GoFile where
  content : List Nat
  mtime : Nat
deriving DecidableEq

/-- The filesystem as a partial map from paths to files. -/
def FS := GoStr → Option GoFile

/-- Writing a file (create/truncate): the new content with a fresh mtime. -/
def updateFS (fs : FS) (p : GoStr) (f : GoFile) : FS :=
  fun q => if q = p then some f else fs q

/-- Go `filepath.Join` of a directory and a relative path (slash form). -/
def pathJoin (dir rel : GoStr) : GoStr := dir ++ '/' :: rel

/-- The cache package's `filesAreIdentical`: both files must exist; a size
comparison first, empty files are identical, contents below 64 KiB are
compared directly, larger files by SHA-256 digest. -/
def filesAreIdentical (fs : FS) (p1 p2 : GoStr) : Bool :=
  match fs p1, fs p2 with
  | some a, some b =>
    if ¬ a.content.length = b.content.length then false
    else if a.content.length = 0 then true
    else if a.content.length < 65536 then decide (a.content = b.content)
    else decide (sha256 a.content = sha256 b.content)
  | _, _ => false

/-- The cache package's `copyFile`: fails when the source cannot be opened,
otherwise writes the source bytes to the destination at the current clock. -/
def copyFile (clock : Nat) (fs : FS) (src dst : GoStr) : Option FS :=
  match fs src with
  | none => none
  | some f => some (updateFS fs dst ⟨f.content, clock⟩)

/-- The cache package's `copyFileIfNeeded`: skip (reporting `false`) when the
files are already identical, otherwise copy (reporting `true`). -/
def copyFileIfNeeded (clock : Nat) (fs : FS) (src dst : GoStr) : Option (FS × Bool) :=
  if filesAreIdentical fs src dst then some (fs, false)
  else
    match copyFile clock fs src dst with
    | none => none
    | some fs2 => some (fs2, true)

/-- The copy loop shared by `CopyArtifacts` and `RestoreArtifacts`: each
relative path is copied from under the source base to under the destination
base; an error stops the loop, keeping the writes made so far. -/
def runCopies (clock : Nat) (fs : FS) (srcDir dstDir : GoStr) : List GoStr → FS × Bool
  | [] => (fs, true)
  | p :: rest =>
    match copyFileIfNeeded clock fs (pathJoin srcDir p) (pathJoin dstDir p) with
    | none => (fs, false)
    | some (fs2, _) => runCopies clock fs2 srcDir dstDir rest

/-- `CopyArtifacts baseDir destDir outputs` over the filesystem model. -/
def CopyArtifacts (clock : Nat) (fs : FS) (baseDir destDir : GoStr)
    (outputs : List GoStr) : FS × Bool :=
  runCopies clock fs baseDir destDir outputs

/-- `RestoreArtifacts cacheDir destDir outputs` over the filesystem model. -/
def RestoreArtifacts (clock : Nat) (fs : FS) (cacheDir destDir : GoStr)
    (outputs : List GoStr) : FS × Bool :=
  runCopies clock fs cacheDir destDir outputs

/-- Two existing files with equal bytes are identical under the three-stage
comparison (sizes agree, small contents agree, large digests agree). -/
theorem filesAreIdentical_of_content_eq {fs : FS} {p1 p2 : GoStr} {a b : GoFile}
    (h1 : fs p1 = some a) (h2 : fs p2 = some b) (h : a.content = b.content) :
    filesAreIdentical fs p1 p2 = true := by
  unfold filesAreIdentical
  rw [h1, h2]
  simp [h]

/-- The identity check only looks at the two paths involved. -/
theorem filesAreIdentical_congr {fs fs2 : FS} {p1 p2 : GoStr}
    (h1 : fs2 p1 = fs p1) (h2 : fs2 p2 = fs p2) :
    filesAreIdentical fs2 p1 p2 = filesAreIdentical fs p1 p2 := by
  unfold filesAreIdentical
  rw [h1, h2]

/-- The copy loop writes only under destination paths of its list. -/
theorem runCopies_localized (clock : Nat) (srcDir dstDir : GoStr) (paths : List GoStr)
    (fs : FS) (x : GoStr) (hx : ∀ p ∈ paths, ¬ x = pathJoin dstDir p) :
    (runCopies clock fs srcDir dstDir paths).1 x = fs x := by
  induction paths generalizing fs with
  | nil => rfl
  | cons p rest ih =>
    have hxp : ¬ x = pathJoin dstDir p := hx p (List.mem_cons_self p rest)
    have hxrest : ∀ q ∈ rest, ¬ x = pathJoin dstDir q :=
      fun q hq => hx q (List.mem_cons_of_mem p hq)
    unfold runCopies copyFileIfNeeded
    by_cases hid : filesAreIdentical fs (pathJoin srcDir p) (pathJoin dstDir p) = true
    · rw [if_pos hid]
      exact ih fs hxrest
    · rw [if_neg hid]
      unfold copyFile
      cases hsrc : fs (pathJoin srcDir p) with
      | none => rfl
      | some f =>
        have := ih (updateFS fs (pathJoin dstDir p) ⟨f.content, clock⟩) hxrest
        rw [this]
        unfold updateFS
        rw [if_neg hxp]

/-- Destination paths are determined by their relative path. -/
theorem pathJoin_right_inj {dir p q : GoStr} (h : pathJoin dir p = pathJoin dir q) : p = q := by
  unfold pathJoin at h
  have h2 := List.append_cancel_left h
  exact List.tail_eq_of_cons_eq h2

/-- An identical pair makes `copyFileIfNeeded` skip. -/
theorem copyFileIfNeeded_skip {clock : Nat} {fs : FS} {src dst : GoStr}
    (hid : filesAreIdentical fs src dst = true) :
    copyFileIfNeeded clock fs src dst = some (fs, false) := by
  unfold copyFileIfNeeded
  rw [if_pos hid]

/-- A differing pair with a readable source makes `copyFileIfNeeded` write
the source bytes at the current clock. -/
theorem copyFileIfNeeded_copy {clock : Nat} {fs : FS} {src dst : GoStr} {f : GoFile}
    (hid : filesAreIdentical fs src dst = false) (hsome : fs src = some f) :
    copyFileIfNeeded clock fs src dst = some (updateFS fs dst ⟨f.content, clock⟩, true) := by
  unfold copyFileIfNeeded copyFile
  rw [hid, hsome]
  rfl

/-- Skipping step of the copy loop. -/
theorem runCopies_cons_skip {clock : Nat} {fs : FS} {srcDir dstDir p : GoStr}
    {rest : List GoStr}
    (hid : filesAreIdentical fs (pathJoin srcDir p) (pathJoin dstDir p) = true) :
    runCopies clock fs srcDir dstDir (p :: rest) = runCopies clock fs srcDir dstDir rest := by
  have h := @copyFileIfNeeded_skip clock fs (pathJoin srcDir p) (pathJoin dstDir p) hid
  simp only [runCopies, h]

/-- Writing step of the copy loop. -/
theorem runCopies_cons_copy {clock : Nat} {fs : FS} {srcDir dstDir p : GoStr}
    {rest : List GoStr} {f : GoFile}
    (hid : filesAreIdentical fs (pathJoin srcDir p) (pathJoin dstDir p) = false)
    (hsome : fs (pathJoin srcDir p) = some f) :
    runCopies clock fs srcDir dstDir (p :: rest) =
      runCopies clock (updateFS fs (pathJoin dstDir p) ⟨f.content, clock⟩)
        srcDir dstDir rest := by
  have h := @copyFileIfNeeded_copy clock fs (pathJoin srcDir p) (pathJoin dstDir p) f hid hsome
  simp only [runCopies, h]

/-- When all sources exist and no destination path collides with a source
path, the copy loop succeeds, and afterwards every destination is identical
to its source under the three-stage comparison. -/
theorem runCopies_establishes (clock : Nat) (srcDir dstDir : GoStr) :
    ∀ (paths : List GoStr) (fs : FS),
      (∀ p ∈ paths, ¬ fs (pathJoin srcDir p) = none) →
      (∀ p ∈ paths, ∀ q ∈ paths, ¬ pathJoin dstDir p = pathJoin srcDir q) →
      paths.Nodup →
      (runCopies clock fs srcDir dstDir paths).2 = true ∧
        ∀ p ∈ paths,
          filesAreIdentical (runCopies clock fs srcDir dstDir paths).1
            (pathJoin srcDir p) (pathJoin dstDir p) = true := by
  intro paths
  induction paths with
  | nil =>
    intro fs _ _ _
    exact ⟨rfl, fun p hp => absurd hp (List.not_mem_nil p)⟩
  | cons p rest ih =>
    intro fs h1 h2 hnodup
    have hps : ¬ fs (pathJoin srcDir p) = none := h1 p (List.mem_cons_self p rest)
    have hpd : ¬ pathJoin dstDir p = pathJoin srcDir p :=
      h2 p (List.mem_cons_self p rest) p (List.mem_cons_self p rest)
    have hpnotrest : ¬ p ∈ rest := (List.nodup_cons.1 hnodup).1
    have hrestnodup : rest.Nodup := (List.nodup_cons.1 hnodup).2
    -- facts used to transport the head pair through the tail run
    have hsrc_preserved : ∀ (g : FS),
        (∀ q ∈ rest, ¬ pathJoin srcDir p = pathJoin dstDir q) := by
      intro _ q hq
      intro hcontra
      exact h2 q (List.mem_cons_of_mem p hq) p (List.mem_cons_self p rest) hcontra.symm
    have hdst_preserved : ∀ q ∈ rest, ¬ pathJoin dstDir p = pathJoin dstDir q := by
      intro q hq hcontra
      exact hpnotrest (pathJoin_right_inj hcontra ▸ hq)
    cases hsome : fs (pathJoin srcDir p) with
    | none => exact absurd hsome hps
    | some f =>
      by_cases hid : filesAreIdentical fs (pathJoin srcDir p) (pathJoin dstDir p) = true
      · rw [runCopies_cons_skip hid]
        have h1' : ∀ q ∈ rest, ¬ fs (pathJoin srcDir q) = none :=
          fun q hq => h1 q (List.mem_cons_of_mem p hq)
        have h2' : ∀ q ∈ rest, ∀ r ∈ rest, ¬ pathJoin dstDir q = pathJoin srcDir r :=
          fun q hq r hr => h2 q (List.mem_cons_of_mem p hq) r (List.mem_cons_of_mem p hr)
        obtain ⟨hok, hpost⟩ := ih fs h1' h2' hrestnodup
        refine ⟨hok, ?_⟩
        intro q hq
        rcases List.mem_cons.1 hq with hqp | hqrest
        · subst hqp
          have hs := runCopies_localized clock srcDir dstDir rest fs
            (pathJoin srcDir q) (hsrc_preserved fs)
          have hd := runCopies_localized clock srcDir dstDir rest fs
            (pathJoin dstDir q) hdst_preserved
          rw [filesAreIdentical_congr hs hd]
          exact hid
        · exact hpost q hqrest
      · have hidf : filesAreIdentical fs (pathJoin srcDir p) (pathJoin dstDir p) = false := by
          revert hid
          cases filesAreIdentical fs (pathJoin srcDir p) (pathJoin dstDir p) <;> simp
        set fs2 := updateFS fs (pathJoin dstDir p) ⟨f.content, clock⟩ with hfs2
        rw [runCopies_cons_copy hidf hsome]
        rw [← hfs2]
        have hfs2src : ∀ q ∈ (p :: rest), fs2 (pathJoin srcDir q) = fs (pathJoin srcDir q) := by
          intro q hq
          rw [hfs2]
          unfold updateFS
          rw [if_neg]
          intro hcontra
          exact h2 p (List.mem_cons_self p rest) q hq hcontra.symm
        have h1' : ∀ q ∈ rest, ¬ fs2 (pathJoin srcDir q) = none := by
          intro q hq
          rw [hfs2src q (List.mem_cons_of_mem p hq)]
          exact h1 q (List.mem_cons_of_mem p hq)
        have h2' : ∀ q ∈ rest, ∀ r ∈ rest, ¬ pathJoin dstDir q = pathJoin srcDir r :=
          fun q hq r hr => h2 q (List.mem_cons_of_mem p hq) r (List.mem_cons_of_mem p hr)
        obtain ⟨hok, hpost⟩ := ih fs2 h1' h2' hrestnodup
        refine ⟨hok, ?_⟩
        intro q hq
        rcases List.mem_cons.1 hq with hqp | hqrest
        · subst hqp
          have hs := runCopies_localized clock srcDir dstDir rest fs2
            (pathJoin srcDir q) (hsrc_preserved fs2)
          have hd := runCopies_localized clock srcDir dstDir rest fs2
            (pathJoin dstDir q) hdst_preserved
          rw [filesAreIdentical_congr hs hd]
          have hsrc2 : fs2 (pathJoin srcDir q) = some f := by
            rw [hfs2src q (List.mem_cons_self q rest), hsome]
          have hdst2 : fs2 (pathJoin dstDir q) = some ⟨f.content, clock⟩ := by
            rw [hfs2]
            unfold updateFS
            rw [if_pos rfl]
          exact filesAreIdentical_of_content_eq hsrc2 hdst2 rfl
        · exact hpost q hqrest

/-- A copy loop over pairs that are already identical does nothing. -/
theorem runCopies_skips (clock : Nat) (srcDir dstDir : GoStr) :
    ∀ (paths : List GoStr) (fs : FS),
      (∀ p ∈ paths, filesAreIdentical fs (pathJoin srcDir p) (pathJoin dstDir p) = true) →
      runCopies clock fs srcDir dstDir paths = (fs, true) := by
  intro paths
  induction paths with
  | nil => intro fs _; rfl
  | cons p rest ih =>
    intro fs h
    unfold runCopies copyFileIfNeeded
    rw [if_pos (h p (List.mem_cons_self p rest))]
    exact ih fs (fun q hq => h q (List.mem_cons_of_mem p hq))

/-- C8: restoration is idempotent with respect to file writes.  Under the
stated separation of cache and destination trees, a first `RestoreArtifacts`
succeeds and a second run over its result changes nothing — every pair is
found identical (size first, direct bytes below 64 KiB, SHA-256 above), so
no destination file is rewritten and every mtime from the first run is kept.
An identical pair is always skipped, and a differing pair with readable
source is overwritten. -/
theorem C8_restore_idempotent (t1 t2 : Nat) (cacheDir destDir : GoStr)
    (outputs : List GoStr) (fs : FS)
    (hsrc : ∀ p ∈ outputs, ¬ fs (pathJoin cacheDir p) = none)
    (hdisj : ∀ p ∈ outputs, ∀ q ∈ outputs, ¬ pathJoin destDir p = pathJoin cacheDir q)
    (hnodup : outputs.Nodup) :
    (RestoreArtifacts t1 fs cacheDir destDir outputs).2 = true ∧
    RestoreArtifacts t2 (RestoreArtifacts t1 fs cacheDir destDir outputs).1
        cacheDir destDir outputs =
      ((RestoreArtifacts t1 fs cacheDir destDir outputs).1, true) ∧
    (∀ (g : FS) (s d : GoStr), filesAreIdentical g s d = true →
      copyFileIfNeeded t2 g s d = some (g, false)) ∧
    (∀ (g : FS) (s d : GoStr) (f : GoFile),
      filesAreIdentical g s d = false → g s = some f →
      copyFileIfNeeded t2 g s d = some (updateFS g d ⟨f.content, t2⟩, true)) := by
  obtain ⟨hok, hpost⟩ :=
    runCopies_establishes t1 cacheDir destDir outputs fs hsrc hdisj hnodup
  refine ⟨hok, ?_, ?_, ?_⟩
  · exact runCopies_skips t2 cacheDir destDir outputs _ hpost
  · intro g s d hid
    exact copyFileIfNeeded_skip hid
  · intro g s d f hid hsome
    exact copyFileIfNeeded_copy hid hsome

/-- C8 witness: one cached file, absent at the destination; the first restore
copies it and the second is a no-op. -/
theorem C8_witness :
    (RestoreArtifacts 1
        (fun p => if p = gs "cache/a.dll" then some ⟨[7, 7], 0⟩ else none)
        (gs "cache") (gs "dest") [gs "a.dll"]).2 = true ∧
    RestoreArtifacts 2
        (RestoreArtifacts 1
          (fun p => if p = gs "cache/a.dll" then some ⟨[7, 7], 0⟩ else none)
          (gs "cache") (gs "dest") [gs "a.dll"]).1 (gs "cache") (gs "dest") [gs "a.dll"] =
      ((RestoreArtifacts 1
          (fun p => if p = gs "cache/a.dll" then some ⟨[7, 7], 0⟩ else none)
          (gs "cache") (gs "dest") [gs "a.dll"]).1, true) ∧
    (∀ (g : FS) (s d : GoStr), filesAreIdentical g s d = true →
      copyFileIfNeeded 2 g s d = some (g, false)) ∧
    (∀ (g : FS) (s d : GoStr) (f : GoFile),
      filesAreIdentical g s d = false → g s = some f →
      copyFileIfNeeded 2 g s d = some (updateFS g d ⟨f.content, 2⟩, true)) :=
  C8_restore_idempotent 1 2 (gs "cache") (gs "dest") [gs "a.dll"]
    (fun p => if p = gs "cache/a.dll" then some ⟨[7, 7], 0⟩ else none)
    (by decide) (by decide) (by decide)

/-! ## Cache manager (Get, Store, cacheSharedFiles) -/

/-- A cache entry as serialised into the metadata store. -/
structure Entry where
  hash : GoStr
  sourceFile : GoStr
  target : GoStr
  userFolders : List GoStr
  timestamp : Nat
  outputs : List GoStr
  success : Bool
deriving DecidableEq

/-- The metadata bucket: fingerprints to deserialised entries. -/
def DB := GoStr → Option Entry

/-- `Cache.Get`: compute the fingerprint, look it up, and report a miss
(`none` without error) when no record exists or the deserialised record has
an empty hash field. -/
def Get (db : DB) (sourceContent : Option (List Nat)) (cfg : Config) :
    Except GoStr (Option Entry) :=
  match sourceContent with
  | none => Except.error (gs "failed to hash source")
  | some content =>
    match db (hashSourceBytes content cfg) with
    | none => Except.ok none
    | some entry =>
      if entry.hash = [] then Except.ok none else Except.ok (some entry)

/-- `Cache.cacheSharedFiles`: collect the shared files of the working
directory and copy into the pool only those whose pool path does not exist
yet; nothing is copied when none are missing. -/
def cacheSharedFiles (clock : Nat) (root : GoStr) (fs : FS) (sourceDir : GoStr)
    (entries : List (GoStr × Bool)) : FS × Bool :=
  let sharedDir := pathJoin root (gs "shared")
  let sharedFiles := CollectSharedFiles entries
  if sharedFiles = [] then (fs, true)
  else
    let missingFiles := sharedFiles.filter (fun f => (fs (pathJoin sharedDir f)).isNone)
    if missingFiles = [] then (fs, true)
    else CopyArtifacts clock fs sourceDir sharedDir missingFiles

/-- The outcome of `Cache.Store`: the recorded entry, the metadata store, the
filesystem after any copying, and whether the call returned without error. -/
structure StoreResult where
  entry : Entry
  db : DB
  fs : FS
  ok : Bool

/-- `Cache.Store`: fingerprint the source, collect outputs for the current
target (unconditionally), record the entry in the metadata store, then — for
successful builds with outputs — copy artifacts under
`artifacts/<fingerprint>` (an error here aborts), and — for successful
builds — pool the shared files (errors here are only warnings). -/
def Store (clock : Nat) (root : GoStr) (db : DB) (fs : FS)
    (sourceDir sourceFileName : GoStr) (sourceContent : List Nat) (ushExists : Bool)
    (entries : List (GoStr × Bool)) (cfg : Config) (success : Bool) : StoreResult :=
  let hash := hashSourceBytes sourceContent cfg
  let baseName := fileBaseOf sourceFileName
  let outputs := CollectOutputs baseName ushExists entries cfg.target
  let entry : Entry := ⟨hash, pathJoin sourceDir sourceFileName, cfg.target, cfg.userFolders,
    clock, outputs, success⟩
  let db2 : DB := fun k => if k = hash then some entry else db k
  if success && !outputs.isEmpty then
    let afterArtifacts :=
      CopyArtifacts clock fs sourceDir (pathJoin (pathJoin root (gs "artifacts")) hash) outputs
    if afterArtifacts.2 then
      ⟨entry, db2, (cacheSharedFiles clock root afterArtifacts.1 sourceDir entries).1, true⟩
    else
      ⟨entry, db2, afterArtifacts.1, false⟩
  else
    if success then
      ⟨entry, db2, (cacheSharedFiles clock root fs sourceDir entries).1, true⟩
    else
      ⟨entry, db2, fs, true⟩

/-- C5 counterexample: a failed Store with a stale matching artifact in the
working directory records a non-empty outputs list — `CollectOutputs` runs
regardless of success — refuting the claimed unconditional emptiness. -/
theorem C5_counterexample :
    (Store 0 (gs "root") (fun _ => none) (fun _ => none) (gs "src") (gs "test.usp") [1, 2]
        false [(gs "test.dll", false)] ⟨gs "234", []⟩ false).entry.outputs =
      [gs "SPlsWork/" ++ gs "test.dll"] ∧
    (Store 0 (gs "root") (fun _ => none) (fun _ => none) (gs "src") (gs "test.usp") [1, 2]
        false [(gs "test.dll", false)] ⟨gs "234", []⟩ false).entry.success = false := by
  constructor
  · decide
  · rfl

/-- C5 as amended: a failed Store still records `success = false`, but its
outputs field is whatever `CollectOutputs` returns at call time (possibly
non-empty); no artifact copying and no shared-pool copying happens, so the
filesystem is untouched and the call reports no error. -/
theorem C5_failed_store_records (clock : Nat) (root : GoStr) (db : DB) (fs : FS)
    (sourceDir sourceFileName : GoStr) (content : List Nat) (ush : Bool)
    (entries : List (GoStr × Bool)) (cfg : Config) :
    (Store clock root db fs sourceDir sourceFileName content ush entries cfg false).entry.success
        = false ∧
    (Store clock root db fs sourceDir sourceFileName content ush entries cfg false).entry.outputs
        = CollectOutputs (fileBaseOf sourceFileName) ush entries cfg.target ∧
    (Store clock root db fs sourceDir sourceFileName content ush entries cfg false).fs = fs ∧
    (Store clock root db fs sourceDir sourceFileName content ush entries cfg false).ok = true :=
  ⟨rfl, rfl, rfl, rfl⟩

/-- A shared-pool path never coincides with an artifact-directory path. -/
theorem shared_path_ne_artifact_path (root hash p f : GoStr) :
    ¬ pathJoin (pathJoin root (gs "shared")) f =
      pathJoin (pathJoin (pathJoin root (gs "artifacts")) hash) p := by
  intro h
  simp only [pathJoin, List.append_assoc, List.cons_append] at h
  have h2 := List.append_cancel_left h
  simp [gs] at h2

/-- `cacheSharedFiles` never touches a pool file that already exists: only
missing pool paths are copy destinations. -/
theorem cacheSharedFiles_preserves (clock : Nat) (root sourceDir : GoStr) (fs : FS)
    (entries : List (GoStr × Bool)) (f : GoStr) (file : GoFile)
    (hpool : fs (pathJoin (pathJoin root (gs "shared")) f) = some file) :
    (cacheSharedFiles clock root fs sourceDir entries).1
        (pathJoin (pathJoin root (gs "shared")) f) = some file := by
  simp only [cacheSharedFiles]
  by_cases h1 : CollectSharedFiles entries = []
  · rw [if_pos h1]
    exact hpool
  · rw [if_neg h1]
    by_cases h2 : (CollectSharedFiles entries).filter
        (fun q => (fs (pathJoin (pathJoin root (gs "shared")) q)).isNone) = []
    · rw [if_pos h2]
      exact hpool
    · rw [if_neg h2]
      unfold CopyArtifacts
      refine Eq.trans
        (runCopies_localized clock sourceDir (pathJoin root (gs "shared")) _ fs _ ?_) hpool
      intro m hm hcontra
      have hf : f = m := pathJoin_right_inj hcontra
      obtain ⟨_, hnone⟩ := List.mem_filter.1 hm
      rw [← hf, hpool] at hnone
      simp at hnone

/-- C9: a file already present in the shared pool is left with its content
and mtime unchanged by any Store call — artifact copies go under
`artifacts/<fingerprint>`, and shared-pool copies target only missing pool
paths. -/
theorem C9_shared_pool_stable (clock : Nat) (root : GoStr) (db : DB) (fs : FS)
    (sourceDir sourceFileName : GoStr) (content : List Nat) (ush : Bool)
    (entries : List (GoStr × Bool)) (cfg : Config) (success : Bool) (f : GoStr) (file : GoFile)
    (hpool : fs (pathJoin (pathJoin root (gs "shared")) f) = some file) :
    (Store clock root db fs sourceDir sourceFileName content ush entries cfg success).fs
        (pathJoin (pathJoin root (gs "shared")) f) = some file := by
  simp only [Store]
  by_cases hca : (success && !(CollectOutputs (fileBaseOf sourceFileName) ush entries
      cfg.target).isEmpty) = true
  · rw [if_pos hca]
    have hfs1 : (CopyArtifacts clock fs sourceDir
        (pathJoin (pathJoin root (gs "artifacts")) (hashSourceBytes content cfg))
        (CollectOutputs (fileBaseOf sourceFileName) ush entries cfg.target)).1
          (pathJoin (pathJoin root (gs "shared")) f) = some file := by
      unfold CopyArtifacts
      refine Eq.trans (runCopies_localized clock sourceDir
        (pathJoin (pathJoin root (gs "artifacts")) (hashSourceBytes content cfg)) _ fs _ ?_)
        hpool
      intro p _ hcontra
      exact shared_path_ne_artifact_path root (hashSourceBytes content cfg) p f hcontra
    by_cases hok : (CopyArtifacts clock fs sourceDir
        (pathJoin (pathJoin root (gs "artifacts")) (hashSourceBytes content cfg))
        (CollectOutputs (fileBaseOf sourceFileName) ush entries cfg.target)).2 = true
    · rw [if_pos hok]
      exact cacheSharedFiles_preserves clock root sourceDir _ entries f file hfs1
    · rw [if_neg hok]
      exact hfs1
  · rw [if_neg hca]
    by_cases hs : success = true
    · rw [if_pos hs]
      exact cacheSharedFiles_preserves clock root sourceDir fs entries f file hpool
    · rw [if_neg hs]
      exact hpool

/-- C9 witness: a pooled file survives a successful Store untouched. -/
theorem C9_witness :
    (Store 9 (gs "r") (fun _ => none)
        (fun p => if p = gs "r/shared/x.ini" then some ⟨[1], 5⟩ else none)
        (gs "src") (gs "a.usp") [] false [] ⟨gs "34", []⟩ true).fs
      (pathJoin (pathJoin (gs "r") (gs "shared")) (gs "x.ini")) = some ⟨[1], 5⟩ :=
  C9_shared_pool_stable 9 (gs "r") (fun _ => none)
    (fun p => if p = gs "r/shared/x.ini" then some ⟨[1], 5⟩ else none)
    (gs "src") (gs "a.usp") [] false [] ⟨gs "34", []⟩ true (gs "x.ini") ⟨[1], 5⟩
    (by decide)

/-- C10: `Get` reports a miss both when no record exists under the computed
fingerprint and when the stored record's hash field is empty; consequently
every entry it returns has a non-empty hash and really is the stored
record. -/
theorem C10_get_nonempty_hash (db : DB) (content : List Nat) (cfg : Config) :
    (∀ e : Entry, Get db (some content) cfg = Except.ok (some e) →
      ¬ e.hash = [] ∧ db (hashSourceBytes content cfg) = some e) ∧
    (Get db (some content) cfg = Except.ok none ↔
      db (hashSourceBytes content cfg) = none ∨
        ∃ e, db (hashSourceBytes content cfg) = some e ∧ e.hash = []) := by
  constructor
  · intro e hget
    unfold Get at hget
    split at hget
    · simp at hget
    · rename_i c2 hc2
      obtain rfl : content = c2 := by injection hc2
      split at hget
      · simp at hget
      · rename_i entry heq
        split at hget
        · simp at hget
        · rename_i hh
          simp only [Except.ok.injEq, Option.some.injEq] at hget
          rw [← hget]
          exact ⟨hh, heq⟩
  · unfold Get
    split
    · rename_i hc2
      exact absurd hc2 (by simp)
    · rename_i c2 hc2
      obtain rfl : content = c2 := by injection hc2
      split
      · rename_i heq2
        simp [heq2]
      · rename_i e2 heq2
        split
        · rename_i hh
          simp only [eq_self_iff_true, true_iff]
          exact Or.inr ⟨e2, heq2, hh⟩
        · rename_i hh
          constructor
          · intro hcontra
            simp at hcontra
          · rintro (hcontra | ⟨e3, he3, h3⟩)
            · rw [heq2] at hcontra
              simp at hcontra
            · rw [heq2] at he3
              simp only [Option.some.injEq] at he3
              rw [← he3] at h3
              exact absurd h3 hh

/-- C10 witness: a stored entry with a non-empty hash is returned by Get and
its hash is non-empty. -/
theorem C10_witness :
    ¬ (⟨gs "h", gs "s", gs "2", [], 0, [], true⟩ : Entry).hash = [] ∧
      (fun _ => some (⟨gs "h", gs "s", gs "2", [], 0, [], true⟩ : Entry) : DB)
          (hashSourceBytes [] ⟨gs "2", []⟩) =
        some ⟨gs "h", gs "s", gs "2", [], 0, [], true⟩ :=
  (C10_get_nonempty_hash (fun _ => some ⟨gs "h", gs "s", gs "2", [], 0, [], true⟩)
      [] ⟨gs "2", []⟩).1
    ⟨gs "h", gs "s", gs "2", [], 0, [], true⟩ rfl
